import Mathlib

/-!
Shallow embedding of the grpcconsulresolver repository (package `consul`):
the resolution watcher (`resolver.go`), the health-filter policy, the
backoff calculator (`backoff.go`) and the endpoint parser (`builder.go`).

Go slices that may be `nil` are modelled as `Option (List _)`; errors are
modelled by their message string (the code itself compares errors by
message); the pseudo-random draws of the backoff jitter are passed in as
explicit arguments; the background worker is modelled as a step function
on the watcher state consuming one query outcome per poll cycle, emitting
the calls made to the update sink (`resolver.ClientConn`).
-/

namespace GrpcConsulResolver

instance {ε α : Type} [DecidableEq ε] [DecidableEq α] : DecidableEq (Except ε α) := fun
  | .ok a, .ok b => decidable_of_iff (a = b) (by simp)
  | .error a, .error b => decidable_of_iff (a = b) (by simp)
  | .ok _, .error _ => isFalse (by simp)
  | .error _, .ok _ => isFalse (by simp)

/-- Health check of a consul service entry: its check id and status string.
Mirrors the fields of `api.HealthCheck` used by `AggregatedStatus`. -/
structure HealthCheck where
  checkID : String
  status : String
  deriving DecidableEq

/-- Service part of a consul `api.ServiceEntry` (fields used by `query`). -/
structure AgentService where
  id : String
  address : String
  port : Int
  deriving DecidableEq

/-- Node part of a consul `api.ServiceEntry` (field used by `query`). -/
structure NodeInfo where
  address : String
  deriving DecidableEq

/-- One entry returned by the consul health endpoint
(`consul.ServiceEntry`): the service, its parent node and the health
checks. -/
structure ServiceEntry where
  service : AgentService
  node : NodeInfo
  checks : List HealthCheck
  deriving DecidableEq

/-- Flags accumulated by the loop of `HealthChecks.AggregatedStatus`. -/
structure AggFlags where
  passing : Bool := false
  warning : Bool := false
  critical : Bool := false
  maintenance : Bool := false
  deriving DecidableEq

/-- Byte/code-point-wise prefix test on character lists, modelling Go's
`strings.HasPrefix` (on UTF-8 strings the two coincide). -/
def charsPrefix : List Char → List Char → Bool
  | [], _ => true
  | _ :: _, [] => false
  | a :: as, b :: bs => a = b && charsPrefix as bs

/-- Lexicographic order on character lists by code point, modelling Go's
`strings.Compare(a, b) <= 0` (UTF-8 byte order coincides with code-point
order). -/
def charsLe : List Char → List Char → Bool
  | [], _ => true
  | _ :: _, [] => false
  | a :: as, b :: bs =>
    if a.toNat < b.toNat then true
    else if b.toNat < a.toNat then false
    else charsLe as bs

/-- Lexicographic order on strings (Go `strings.Compare(a, b) <= 0`). -/
def addrLe (a b : String) : Prop := charsLe a.data b.data = true

instance : DecidableRel addrLe := fun a b => by unfold addrLe; infer_instance

/-- ASCII lowering of one character (`strings.ToLower`; the option keys
and values the parser compares are ASCII). -/
def lowerChar (c : Char) : Char :=
  if 65 ≤ c.toNat ∧ c.toNat ≤ 90 then Char.ofNat (c.toNat + 32) else c

/-- ASCII `strings.ToLower`. -/
def goToLower (s : String) : String := ⟨s.data.map lowerChar⟩

/-- `strings.Split(s, ",")`: the comma-separated pieces of the character
list; the result always has at least one piece. -/
def splitComma : List Char → List (List Char)
  | [] => [[]]
  | c :: rest =>
    let ps := splitComma rest
    if c = ',' then [] :: ps
    else
      match ps with
      | [] => [[c]]
      | p :: tl => (c :: p) :: tl

/-- `strings.Split(s, ",")` on strings. -/
def goSplitComma (s : String) : List String := (splitComma s.data).map (⟨·⟩)

/-- Loop body of `HealthChecks.AggregatedStatus`; `none` models the early
`return ""` on an unknown status string. Modelled from the
`hashicorp/consul/api` dependency (an external collaborator of this
repository), which the filter policy calls. -/
def aggLoop : AggFlags → List HealthCheck → Option AggFlags
  | f, [] => some f
  | f, c :: rest =>
    if c.checkID = "_node_maintenance" ∨ charsPrefix "_service_maintenance:".data c.checkID.data then
      aggLoop { f with maintenance := true } rest
    else if c.status = "passing" then aggLoop { f with passing := true } rest
    else if c.status = "warning" then aggLoop { f with warning := true } rest
    else if c.status = "critical" then aggLoop { f with critical := true } rest
    else none

/-- `HealthChecks.AggregatedStatus` of the `hashicorp/consul/api`
dependency: maintenance dominates critical dominates warning dominates
passing; a list with no checks yields "passing". -/
def aggregatedStatus (checks : List HealthCheck) : String :=
  match aggLoop {} checks with
  | none => ""
  | some f =>
    if f.maintenance then "maintenance"
    else if f.critical then "critical"
    else if f.warning then "warning"
    else if f.passing then "passing"
    else "passing"

/-- Loop of `filterPreferOnlyHealthy` building the `healthy` slice. -/
def healthyEntries : List ServiceEntry → List ServiceEntry
  | [] => []
  | e :: rest =>
    if aggregatedStatus e.checks = "passing" then e :: healthyEntries rest
    else healthyEntries rest

/-- `filterPreferOnlyHealthy` (resolver.go): keep only entries whose
aggregated health status is passing; if none is passing return the input
unchanged. -/
def filterPreferOnlyHealthy (entries : List ServiceEntry) : List ServiceEntry :=
  let healthy := healthyEntries entries
  if healthy.length ≠ 0 then healthy else entries

/-- Go's `net.JoinHostPort`: brackets the host when it contains a colon. -/
def joinHostPort (host port : String) : String :=
  if host.data.contains ':' then "[" ++ host ++ "]:" ++ port
  else host ++ ":" ++ port

/-- Address string built for one service entry in `query` (resolver.go):
the service address, falling back to the node address when empty, joined
with the service port. -/
def entryAddr (e : ServiceEntry) : String :=
  let addr := if e.service.address = "" then e.node.address else e.service.address
  joinHostPort addr (toString e.service.port)

/-- Health filter modes of the resolver (`healthFilter` in resolver.go). -/
inductive HealthFilterMode where
  | undefined
  | onlyHealthy
  | fallbackToUnhealthy
  deriving DecidableEq

/-- Address list produced by a successful `query` (resolver.go): apply the
client-side filter in fallbackToUnhealthy mode, then map every entry to
its address string. The Go code always returns a non-nil slice here. -/
def queryAddrs (mode : HealthFilterMode) (entries : List ServiceEntry) : List String :=
  let entries := if mode = .fallbackToUnhealthy then filterPreferOnlyHealthy entries else entries
  entries.map entryAddr

/-- `addressesEqual` (resolver.go) on possibly-nil address slices: a nil
slice differs from any non-nil slice, otherwise elementwise comparison of
the address strings. -/
def addressesEqual : Option (List String) → Option (List String) → Bool
  | none, some _ => false
  | some _, none => false
  | none, none => true
  | some a, some b => a = b

/-- Sorting done by `reportAddress` via `slices.SortFunc` with
`strings.Compare`: ascending lexicographic order of the address strings.
Since equal elements are identical strings the sorted list is unique, so
insertion sort models any correct sorting routine. -/
def sortAddrs (l : List String) : List String :=
  l.insertionSort addrLe

/-- `state` (resolver.go): the last thing reported to the update sink,
either an address list or an error (kept by message). -/
structure ReporterState where
  addresses : Option (List String)
  err : Option String
  deriving DecidableEq

/-- Calls the watcher makes on the update sink (`resolver.ClientConn`). -/
inductive SinkEvent where
  | updateState (addrs : List String)
  | reportError (msg : String)
  deriving DecidableEq

/-- `reportAddress` (resolver.go): sort the addresses; skip the sink call
when no error is pending and the sorted list equals the last reported one;
otherwise record the new state and call `UpdateState` (whose own error is
only logged). Returns the emitted sink call, if any, and the new state. -/
def reportAddress (s : ReporterState) (addrs : List String) : Option SinkEvent × ReporterState :=
  if s.err = none ∧ addressesEqual (some (sortAddrs addrs)) s.addresses then
    (none, s)
  else
    (some (.updateState (sortAddrs addrs)),
     { addresses := some (sortAddrs addrs), err := none })

/-- `reportError` (resolver.go): skip the sink call when the last reported
error has the same message; otherwise record the error, clear the
addresses and call `ReportError`. -/
def reportError (s : ReporterState) (msg : String) : Option SinkEvent × ReporterState :=
  if s.err = some msg then
    (none, s)
  else
    (some (.reportError msg), { addresses := none, err := some msg })

/-- Persistent state of the watcher's inner loop (resolver.go `watcher`):
the reporter state, the retry counter and the blocking-query wait index
(`opts.WaitIndex`). -/
structure WatcherState where
  reporter : ReporterState
  retryCnt : Nat
  waitIndex : Nat
  deriving DecidableEq

/-- Initial watcher state: zero-valued `state` (nil addresses, nil error),
retry counter 0 and wait index 0. -/
def initWatcherState : WatcherState :=
  { reporter := { addresses := none, err := none }, retryCnt := 0, waitIndex := 0 }

/-- Outcome of one call to `query` (resolver.go): a successful result with
the entries and the returned `meta.LastIndex`, a failure with an error
message, or a failure whose error is `context.Canceled`. -/
inductive QueryOutcome where
  | ok (entries : List ServiceEntry) (lastIndex : Nat)
  | fail (msg : String)
  | canceled
  deriving DecidableEq

/-- Result of one poll cycle of the watcher: the sink calls emitted, the
next state (`none` when the worker returned), and the retry count passed
to `backoffCounter.Backoff` when a retry timer was scheduled. -/
structure StepOut where
  events : List SinkEvent
  next : Option WatcherState
  backoffArg : Option Nat
  deriving DecidableEq

/-- One iteration of the inner loop of `watcher` (resolver.go).
`usFails` records whether the sink's `UpdateState` call would return an
error; the code ignores that error apart from logging it.
On failure: a cancellation error returns from the worker; any other error
schedules a retry timer with `Backoff(retryCnt)`, increments the counter
and hands the error to `reportError` (the failed `query` also zeroed
`opts.WaitIndex`).
On success: the counter is reset, a wait index smaller than the held one
resets the index to zero and re-polls without reporting, otherwise the
addresses are handed to `reportAddress`. -/
def watcherStep (mode : HealthFilterMode) (s : WatcherState) (q : QueryOutcome)
    (usFails : Bool) : StepOut :=
  match q with
  | .canceled => { events := [], next := none, backoffArg := none }
  | .fail msg =>
    let (ev, rep) := reportError s.reporter msg
    { events := ev.toList
      next := some { reporter := rep, retryCnt := s.retryCnt + 1, waitIndex := 0 }
      backoffArg := some s.retryCnt }
  | .ok entries idx =>
    if idx < s.waitIndex then
      { events := []
        next := some { reporter := s.reporter, retryCnt := 0, waitIndex := 0 }
        backoffArg := none }
    else
      let addrs := queryAddrs mode entries
      let (ev, rep) := reportAddress s.reporter addrs
      let _ := usFails
      { events := ev.toList
        next := some { reporter := rep, retryCnt := 0, waitIndex := idx }
        backoffArg := none }

/-- Run the watcher over a script of query outcomes (each paired with
whether its `UpdateState` delivery would fail), collecting the sink calls
in order; a cancellation stops the run (`none` final state). -/
def watcherRun (mode : HealthFilterMode) (s : WatcherState) :
    List (QueryOutcome × Bool) → List SinkEvent × Option WatcherState
  | [] => ([], some s)
  | (q, f) :: rest =>
    match (watcherStep mode s q f).next with
    | none => ((watcherStep mode s q f).events, none)
    | some s' =>
      let tail := watcherRun mode s' rest
      ((watcherStep mode s q f).events ++ tail.1, tail.2)

/-- Configuration of the backoff calculator (`backoff` in backoff.go):
the interval table in nanoseconds and the jitter percentage. -/
structure BackoffConf where
  intervals : List Int
  jitterPct : Int
  deriving DecidableEq

/-- Interval table of `defaultBackoff()` (backoff.go), in nanoseconds:
10ms, 50ms, 250ms, 500ms, 1s, 2s, 3s, 4s, 5s, with 10 percent jitter. -/
def defaultBackoffConf : BackoffConf :=
  { intervals := [10000000, 50000000, 250000000, 500000000,
                  1000000000, 2000000000, 3000000000, 4000000000, 5000000000]
    jitterPct := 10 }

/-- Index selection of `backoff.Backoff` (backoff.go): an index below 0
or past the end of the table is replaced by the last index. -/
def backoffIdx (b : BackoffConf) (retry : Int) : Int :=
  if retry < 0 ∨ retry > (b.intervals.length : Int) - 1 then (b.intervals.length : Int) - 1
  else retry

/-- `backoff.Backoff` (backoff.go) with the two pseudo-random draws made
explicit: `draw` is `jitterSrc.Intn(jitterPct)` (so `0 ≤ draw < jitterPct`)
and `addJitter` tells whether `jitterSrc.Intn(2)` returned 0. The jitter
is `(d/100)*draw` (Go truncated integer division), added or subtracted
from the selected table entry `d`. -/
def BackoffConf.Backoff (b : BackoffConf) (retry : Int) (draw : Int) (addJitter : Bool) : Int :=
  if addJitter then
    b.intervals.getD (backoffIdx b retry).toNat 0 +
      (b.intervals.getD (backoffIdx b retry).toNat 0).tdiv 100 * draw
  else
    b.intervals.getD (backoffIdx b retry).toNat 0 -
      (b.intervals.getD (backoffIdx b retry).toNat 0).tdiv 100 * draw

/-- Options accumulated by `extractOpts` (builder.go): the consul scheme,
the tag slice (nil until a tags option is seen), the health filter and the
token, with their Go zero values as defaults. -/
structure Opts where
  scheme : String := ""
  tags : Option (List String) := none
  health : HealthFilterMode := .undefined
  token : String := ""
  deriving DecidableEq

/-- Loop of `extractOpts` (builder.go) over the url query values: each key
with a non-empty value list is matched case-insensitively and only the
last value of the list is used; an unsupported key or value aborts with an
error message. `url.Values` is modelled as an association list. -/
def extractOptsLoop (acc : Opts) : List (String × List String) → Except String Opts
  | [] => .ok acc
  | (key, values) :: rest =>
    if values = [] then extractOptsLoop acc rest
    else
      let value := values.getLastD ""
      if goToLower key = "scheme" then
        let s := goToLower value
        if s = "http" ∨ s = "https" then extractOptsLoop { acc with scheme := s } rest
        else .error ("unsupported scheme '" ++ value ++ "'")
      else if goToLower key = "tags" then
        extractOptsLoop { acc with tags := some (goSplitComma value) } rest
      else if goToLower key = "health" then
        if goToLower value = "healthy" then
          extractOptsLoop { acc with health := .onlyHealthy } rest
        else if goToLower value = "fallbacktounhealthy" then
          extractOptsLoop { acc with health := .fallbackToUnhealthy } rest
        else .error ("unsupported health parameter value: '" ++ value ++ "'")
      else if goToLower key = "token" then
        extractOptsLoop { acc with token := value } rest
      else .error ("unsupported parameter: '" ++ key ++ "'")

/-- `extractOpts` (builder.go), starting from the zero-valued options. -/
def extractOpts (query : List (String × List String)) : Except String Opts :=
  extractOptsLoop {} query

/-- Result of `parseEndpoint` (builder.go). -/
structure Endpoint where
  serviceName : String
  scheme : String
  tags : Option (List String)
  health : HealthFilterMode
  token : String
  deriving DecidableEq

/-- Service name of `parseEndpoint` (builder.go): the url path with one
leading slash stripped (`strings.TrimPrefix(url.Path, "/")`). -/
def trimmedService (path : String) : String :=
  if charsPrefix "/".data path.data then ⟨path.data.drop 1⟩ else path

/-- `parseEndpoint` (builder.go): strip the leading slash from the url
path to get the service name (erroring when empty), extract the options,
then default an empty scheme to "http" and an undefined health filter to
only-healthy. On error `Build` returns it and no resolver is built. -/
def parseEndpoint (path : String) (query : List (String × List String)) :
    Except String Endpoint :=
  let serviceName : String := trimmedService path
  if serviceName = "" then .error "path is missing in url"
  else
    match extractOpts query with
    | .error e => .error e
    | .ok opts =>
      .ok { serviceName
            scheme := if opts.scheme = "" then "http" else opts.scheme
            tags := opts.tags
            health := if opts.health = .undefined then .onlyHealthy else opts.health
            token := opts.token }

/-- Validity of one query parameter, written from the specification's
words for the refinement check of the parser: the key must be one of
scheme, tags, health or token (case-insensitively), scheme only http or
https, health only healthy or fallbackToUnhealthy (values also
case-insensitive); tags and token accept any value. Only the last value
of the parameter is consulted. -/
def paramOkSpec (key : String) (values : List String) : Bool :=
  let v := goToLower (values.getLastD "")
  if goToLower key = "scheme" then v = "http" ∨ v = "https"
  else if goToLower key = "tags" then true
  else if goToLower key = "health" then v = "healthy" ∨ v = "fallbacktounhealthy"
  else if goToLower key = "token" then true
  else false

/-! Order facts about the lexicographic comparison used for sorting. -/

theorem charsLe_total (a b : List Char) : charsLe a b = true ∨ charsLe b a = true := by
  induction a generalizing b with
  | nil => left; rfl
  | cons x xs ih =>
    cases b with
    | nil => right; rfl
    | cons y ys =>
      rcases Nat.lt_trichotomy x.toNat y.toNat with h | h | h
      · left; simp [charsLe, h]
      · rcases ih ys with h2 | h2
        · left; simp [charsLe, h, h2]
        · right; simp [charsLe, h.symm, h2]
      · right; simp [charsLe, h]

theorem charsLe_trans {a b c : List Char} (hab : charsLe a b = true)
    (hbc : charsLe b c = true) : charsLe a c = true := by
  induction a generalizing b c with
  | nil => rfl
  | cons x xs ih =>
    cases b with
    | nil => simp [charsLe] at hab
    | cons y ys =>
      cases c with
      | nil => simp [charsLe] at hbc
      | cons z zs =>
        simp only [charsLe] at hab hbc ⊢
        split_ifs at hab hbc ⊢ <;>
          first
          | rfl
          | omega
          | exact ih hab hbc

theorem charsLe_antisymm {a b : List Char} (hab : charsLe a b = true)
    (hba : charsLe b a = true) : a = b := by
  induction a generalizing b with
  | nil =>
    cases b with
    | nil => rfl
    | cons y ys => simp [charsLe] at hba
  | cons x xs ih =>
    cases b with
    | nil => simp [charsLe] at hab
    | cons y ys =>
      simp only [charsLe] at hab hba
      split_ifs at hab hba with h1 h2 h3
      all_goals try omega
      all_goals try simp_all
      have hn : x.toNat = y.toNat := by omega
      have hx : x = y := Char.eq_of_val_eq (UInt32.toNat.inj hn)
      simp [hx, ih hab hba]

theorem stringExt {a b : String} (h : a.data = b.data) : a = b := by
  cases a; cases b; simp_all

instance : IsTotal String addrLe := ⟨fun a b => charsLe_total a.data b.data⟩

instance : IsTrans String addrLe := ⟨fun _ _ _ h1 h2 => charsLe_trans h1 h2⟩

instance : IsAntisymm String addrLe :=
  ⟨fun _ _ h1 h2 => stringExt (charsLe_antisymm h1 h2)⟩

theorem sortAddrs_sorted (l : List String) : (sortAddrs l).Sorted addrLe :=
  List.sorted_insertionSort addrLe l

theorem sortAddrs_perm (l : List String) : (sortAddrs l).Perm l :=
  List.perm_insertionSort addrLe l

theorem sortAddrs_eq_of_perm_sorted {l m : List String} (hp : l.Perm m)
    (hm : m.Sorted addrLe) : sortAddrs l = m :=
  List.eq_of_perm_of_sorted ((sortAddrs_perm l).trans hp) (sortAddrs_sorted l) hm

/-- C1: in every successful poll cycle the list handed to `UpdateState` is
the input sorted lexicographically by host:port string; when no error is
pending and the sorted list equals the last reported one (in particular
when the input is a permutation of it) `UpdateState` is not called, so the
same address set is never delivered twice in a row; and the stored last
reported list is always a sorted one. -/
theorem reportAddress_sorted_and_deduplicates (s : ReporterState) (addrs : List String) :
    (∀ l, (reportAddress s addrs).1 = some (.updateState l) →
      l = sortAddrs addrs ∧ l.Sorted addrLe) ∧
    (s.err = none → s.addresses = some (sortAddrs addrs) →
      (reportAddress s addrs).1 = none) ∧
    (∀ prev, s.err = none → s.addresses = some prev → prev.Sorted addrLe →
      addrs.Perm prev → (reportAddress s addrs).1 = none) ∧
    (∀ prev, s.err = none → s.addresses = some prev →
      ∀ l, (reportAddress s addrs).1 = some (.updateState l) → l ≠ prev) ∧
    (∀ l, (reportAddress s addrs).2.addresses = some l →
      l = sortAddrs addrs ∨ s.addresses = some l) := by
  refine ⟨?_, ?_, ?_, ?_, ?_⟩
  · intro l hl
    unfold reportAddress at hl
    split at hl
    · simp at hl
    · simp at hl
      exact ⟨hl.symm, hl ▸ sortAddrs_sorted addrs⟩
  · intro he ha
    unfold reportAddress
    rw [if_pos ⟨he, by simp [addressesEqual, ha]⟩]
  · intro prev he ha hsorted hperm
    have : sortAddrs addrs = prev := sortAddrs_eq_of_perm_sorted hperm hsorted
    unfold reportAddress
    rw [if_pos ⟨he, by simp [addressesEqual, ha, this]⟩]
  · intro prev he ha l hl hlp
    unfold reportAddress at hl
    split at hl
    · simp at hl
    · next hcond =>
      simp at hl
      apply hcond
      refine ⟨he, ?_⟩
      simp [addressesEqual, ha]
      exact hl.trans hlp
  · intro l hl
    unfold reportAddress at hl
    split at hl
    · right; exact hl
    · left; simp at hl; exact hl.symm

/-- Witness for C1: with ["a:1", "b:2"] last reported and no pending
error, reporting the permutation ["b:2", "a:1"] emits no sink call. -/
theorem reportAddress_sorted_and_deduplicates_witness :
    (reportAddress { addresses := some ["a:1", "b:2"], err := none } ["b:2", "a:1"]).1 = none :=
  (reportAddress_sorted_and_deduplicates
      { addresses := some ["a:1", "b:2"], err := none } ["b:2", "a:1"]).2.2.1
    ["a:1", "b:2"] rfl rfl (by decide) (by decide)

/-- C2: the watcher's error path hands the error to `reportError`, which
calls `ReportError` on the sink exactly when the message differs from the
last reported error; an identical consecutive message changes nothing;
after any pending error a successful `reportAddress` always calls
`UpdateState` and clears the remembered error, so the same message is
reported again afterwards. -/
theorem reportError_deduplicates_by_message (s : ReporterState) (w : WatcherState)
    (msg : String) (addrs : List String) (mode : HealthFilterMode) (f : Bool) :
    ((reportError s msg).1 = some (.reportError msg) ↔ s.err ≠ some msg) ∧
    (s.err = some msg → reportError s msg = (none, s)) ∧
    (watcherStep mode w (.fail msg) f).events = (reportError w.reporter msg).1.toList ∧
    (s.err ≠ none →
      (reportAddress s addrs).1 = some (.updateState (sortAddrs addrs)) ∧
      (reportAddress s addrs).2.err = none ∧
      (reportError (reportAddress s addrs).2 msg).1 = some (.reportError msg)) := by
  refine ⟨?_, ?_, ?_, ?_⟩
  · unfold reportError
    split
    · next h => simp [h]
    · next h => simp [h]
  · intro h
    unfold reportError
    rw [if_pos h]
  · rfl
  · intro he
    have hguard : ¬(s.err = none ∧ addressesEqual (some (sortAddrs addrs)) s.addresses = true) := by
      intro hc
      exact he hc.1
    unfold reportAddress
    rw [if_neg hguard]
    refine ⟨rfl, rfl, ?_⟩
    unfold reportError
    simp

/-- Witness for C2: after the error "boom" was reported, reporting it
again emits nothing, while reporting "other" emits a sink call; after an
address report clears the error, "boom" is emitted again. -/
theorem reportError_deduplicates_by_message_witness :
    ((reportError { addresses := none, err := some "boom" } "boom").1
        = some (.reportError "boom") ↔ some "boom" ≠ some "boom") ∧
    (reportError { addresses := none, err := some "boom" } "boom"
        = (none, { addresses := none, err := some "boom" })) ∧
    (reportError (reportAddress { addresses := none, err := some "boom" } []).2 "boom").1
        = some (.reportError "boom") := by
  have h := reportError_deduplicates_by_message
    { addresses := none, err := some "boom" } initWatcherState "boom" [] .onlyHealthy false
  exact ⟨h.1, h.2.1 rfl, (h.2.2.2 (by decide)).2.2⟩

/-- Loop of `filterPreferOnlyHealthy` is a filter on the aggregated health
status. -/
theorem healthyEntries_eq_filter (entries : List ServiceEntry) :
    healthyEntries entries = entries.filter fun e => aggregatedStatus e.checks = "passing" := by
  induction entries with
  | nil => rfl
  | cons e rest ih =>
    unfold healthyEntries
    by_cases h : aggregatedStatus e.checks = "passing" <;> simp [h, ih, List.filter]

/-- C3: `filterPreferOnlyHealthy` returns exactly the passing sub-list
when it is non-empty and the whole input otherwise; an entry with zero
health checks has aggregated status passing. -/
theorem filterPreferOnlyHealthy_spec (entries : List ServiceEntry) :
    (filterPreferOnlyHealthy entries =
      if (entries.filter fun e => aggregatedStatus e.checks = "passing") = []
      then entries
      else entries.filter fun e => aggregatedStatus e.checks = "passing") ∧
    aggregatedStatus [] = "passing" ∧
    (∀ e : ServiceEntry, e.checks = [] → aggregatedStatus e.checks = "passing") := by
  refine ⟨?_, rfl, ?_⟩
  · unfold filterPreferOnlyHealthy
    rw [healthyEntries_eq_filter]
    by_cases h : (entries.filter fun e => aggregatedStatus e.checks = "passing") = [] <;>
      simp [h]
  · intro e he
    rw [he]
    rfl

/-- Witness for C3: a concrete entry with zero health checks counts as
passing. -/
theorem filterPreferOnlyHealthy_spec_witness :
    aggregatedStatus (ServiceEntry.checks ⟨⟨"i", "x", 1⟩, ⟨"n"⟩, []⟩) = "passing" :=
  (filterPreferOnlyHealthy_spec []).2.2 ⟨⟨"i", "x", 1⟩, ⟨"n"⟩, []⟩ rfl

/-- Counterexample to C4: a retry count below 0 selects the last (5s)
table entry, not the first (10ms) one, and the returned duration lies far
outside the jitter range of the first entry. -/
theorem backoff_negative_retry_counterexample :
    BackoffConf.Backoff defaultBackoffConf (-1) 0 true = 5000000000 ∧
    BackoffConf.Backoff defaultBackoffConf 0 0 true = 10000000 ∧
    ¬(100 * BackoffConf.Backoff defaultBackoffConf (-1) 0 true ≤ 110 * 10000000) := by
  decide

/-- Bound on the backoff jitter: when the jitter step `q` is nonnegative
and at most a hundredth of the base `d`, adding or subtracting `q * draw`
for a draw below 10 stays within plus or minus 10 percent of `d`. -/
theorem jitter_bound (d q draw : Int) (add : Bool) (hq : 0 ≤ q) (hqd : 100 * q ≤ d)
    (h0 : 0 ≤ draw) (h1 : draw < 10) :
    90 * d ≤ 100 * (if add then d + q * draw else d - q * draw) ∧
    100 * (if add then d + q * draw else d - q * draw) ≤ 110 * d := by
  have ht : q * draw ≤ q * 9 := by
    apply mul_le_mul_of_nonneg_left _ hq
    omega
  have ht0 : 0 ≤ q * draw := mul_nonneg hq h0
  cases add <;> simp <;> constructor <;> linarith

/-- Every entry of the default interval table (and the out-of-range
default 0) is nonnegative and at least a hundred times its own jitter
step. -/
theorem defaultInterval_tdiv_bounds (i : Nat) :
    0 ≤ (defaultBackoffConf.intervals.getD i 0).tdiv 100 ∧
    100 * (defaultBackoffConf.intervals.getD i 0).tdiv 100 ≤
      defaultBackoffConf.intervals.getD i 0 := by
  match i with
  | 0 => decide
  | 1 => decide
  | 2 => decide
  | 3 => decide
  | 4 => decide
  | 5 => decide
  | 6 => decide
  | 7 => decide
  | 8 => decide
  | n + 9 =>
    rw [List.getD_eq_default]
    · decide
    · simp [defaultBackoffConf]

/-- C4 (amended): a retry count below 0 or at/above the table length
selects the last (longest) table entry — `Backoff` then agrees with
`Backoff` at the last index — and the returned duration always lies
within plus or minus 10 percent (the configured jitter percentage) of the
selected table entry. -/
theorem backoff_clamps_and_jitter_bounded (retry draw : Int) (addJitter : Bool)
    (h0 : 0 ≤ draw) (h1 : draw < 10) :
    ((retry < 0 ∨ 9 ≤ retry) →
      BackoffConf.Backoff defaultBackoffConf retry draw addJitter =
        BackoffConf.Backoff defaultBackoffConf 8 draw addJitter) ∧
    (∀ d : Int,
      d = defaultBackoffConf.intervals.getD
            (if retry < 0 ∨ 8 < retry then 8 else retry.toNat) 0 →
      90 * d ≤ 100 * BackoffConf.Backoff defaultBackoffConf retry draw addJitter ∧
      100 * BackoffConf.Backoff defaultBackoffConf retry draw addJitter ≤ 110 * d) := by
  have hlen : (defaultBackoffConf.intervals.length : Int) - 1 = 8 := by decide
  constructor
  · intro h
    have hidx : backoffIdx defaultBackoffConf retry = backoffIdx defaultBackoffConf 8 := by
      unfold backoffIdx
      rw [hlen]
      split_ifs <;> omega
    unfold BackoffConf.Backoff
    rw [hidx]
  · intro d hd
    have hidx : (backoffIdx defaultBackoffConf retry).toNat
        = (if retry < 0 ∨ 8 < retry then 8 else retry.toNat) := by
      unfold backoffIdx
      rw [hlen]
      split_ifs <;> omega
    rw [hd, ← hidx]
    have hb := defaultInterval_tdiv_bounds (backoffIdx defaultBackoffConf retry).toNat
    unfold BackoffConf.Backoff
    exact jitter_bound _ _ draw addJitter hb.1 hb.2 h0 h1

/-- Witness for C4 (amended): retry count -3 selects the last (5s) entry
and the duration with draw 7 subtracted lies within 10 percent of 5s. -/
theorem backoff_clamps_and_jitter_bounded_witness :
    BackoffConf.Backoff defaultBackoffConf (-3) 7 false =
      BackoffConf.Backoff defaultBackoffConf 8 7 false ∧
    90 * 5000000000 ≤ 100 * BackoffConf.Backoff defaultBackoffConf (-3) 7 false ∧
    100 * BackoffConf.Backoff defaultBackoffConf (-3) 7 false ≤ 110 * 5000000000 := by
  have h := backoff_clamps_and_jitter_bounded (-3) 7 false (by decide) (by decide)
  have h2 := h.2 5000000000 (by decide)
  exact ⟨h.1 (Or.inl (by decide)), h2.1, h2.2⟩

/-- Counterexample to C5: a returned wait index equal to the held one (5,
"not greater" but not smaller) does not reset the token: the cycle
proceeds to report, `UpdateState` is called and the index is kept. -/
theorem token_not_greater_counterexample :
    (watcherStep .onlyHealthy
        { reporter := { addresses := some [], err := none }, retryCnt := 0, waitIndex := 5 }
        (.ok [{ service := { id := "i", address := "h", port := 1 },
                node := { address := "n" }, checks := [] }] 5) false).events
      = [.updateState ["h:1"]] ∧
    (watcherStep .onlyHealthy
        { reporter := { addresses := some [], err := none }, retryCnt := 0, waitIndex := 5 }
        (.ok [{ service := { id := "i", address := "h", port := 1 },
                node := { address := "n" }, checks := [] }] 5) false).next
      = some { reporter := { addresses := some ["h:1"], err := none },
               retryCnt := 0, waitIndex := 5 } := by
  decide

/-- C5 (amended): whenever a successful query returns a wait index
strictly smaller than the held one, the watcher resets the index to zero
and re-polls immediately with no sink call and no backoff. -/
theorem token_regression_resets_and_skips (mode : HealthFilterMode) (s : WatcherState)
    (entries : List ServiceEntry) (idx : Nat) (f : Bool) (h : idx < s.waitIndex) :
    watcherStep mode s (.ok entries idx) f =
      { events := [],
        next := some { reporter := s.reporter, retryCnt := 0, waitIndex := 0 },
        backoffArg := none } := by
  simp only [watcherStep]
  rw [if_pos h]

/-- Witness for C5 (amended): wait index falls from 5 to 3, the token is
reset and nothing is reported. -/
theorem token_regression_resets_and_skips_witness :
    watcherStep .onlyHealthy
        { reporter := { addresses := none, err := none }, retryCnt := 2, waitIndex := 5 }
        (.ok [] 3) false =
      { events := [],
        next := some { reporter := { addresses := none, err := none },
                       retryCnt := 0, waitIndex := 0 },
        backoffArg := none } :=
  token_regression_resets_and_skips .onlyHealthy
    { reporter := { addresses := none, err := none }, retryCnt := 2, waitIndex := 5 }
    [] 3 false (by decide)

/-- C6: a query error recognized as cancellation terminates the worker at
once with no sink call, and the rest of the script is never processed —
after the run ends no `UpdateState` or `ReportError` call ever occurs. -/
theorem cancellation_stops_without_reporting (mode : HealthFilterMode) (s : WatcherState)
    (f : Bool) (rest : List (QueryOutcome × Bool)) :
    watcherStep mode s .canceled f = { events := [], next := none, backoffArg := none } ∧
    watcherRun mode s ((.canceled, f) :: rest) = ([], none) := by
  exact ⟨rfl, rfl⟩

/-- Counterexample to C7: a delivery failure (`UpdateState` returning an
error, last argument `true`) is ignored by the watcher: the delivery is
attempted but the retry counter stays 0 instead of increasing by one. -/
theorem delivery_failure_not_counted_counterexample :
    (watcherStep .onlyHealthy initWatcherState (.ok [] 1) true).events
      = [.updateState []] ∧
    (watcherStep .onlyHealthy initWatcherState (.ok [] 1) true).next.map
        WatcherState.retryCnt = some 0 := by
  decide

/-- C7 (amended): the retry counter increases by one on each consecutive
query failure (a delivery failure is only logged and not counted), the
backoff for the scheduled retry is computed with the counter value before
the increment, any successful query resets the counter to zero, and hence
the first failure after a success schedules its backoff with counter
value zero. -/
theorem retry_counter_behaviour (mode : HealthFilterMode) (s : WatcherState) (msg : String)
    (f f2 : Bool) :
    ((watcherStep mode s (.fail msg) f).backoffArg = some s.retryCnt) ∧
    ((watcherStep mode s (.fail msg) f).next.map WatcherState.retryCnt
        = some (s.retryCnt + 1)) ∧
    (∀ entries idx, (watcherStep mode s (.ok entries idx) f).next.map WatcherState.retryCnt
        = some 0) ∧
    (∀ entries idx s1, (watcherStep mode s (.ok entries idx) f).next = some s1 →
      (watcherStep mode s1 (.fail msg) f2).backoffArg = some 0) := by
  refine ⟨rfl, rfl, ?_, ?_⟩
  · intro entries idx
    simp only [watcherStep]
    split_ifs <;> rfl
  · intro entries idx s1 h1
    simp only [watcherStep] at h1
    split_ifs at h1 <;>
      · simp only [Option.some.injEq] at h1
        subst h1
        rfl

/-- Witness for C7 (amended): a failure right after a successful first
query schedules its backoff with counter value zero. -/
theorem retry_counter_behaviour_witness :
    (watcherStep .onlyHealthy
        { reporter := { addresses := some [], err := none }, retryCnt := 0, waitIndex := 1 }
        (.fail "boom") false).backoffArg = some 0 :=
  (retry_counter_behaviour .onlyHealthy initWatcherState "boom" false false).2.2.2 [] 1
    { reporter := { addresses := some [], err := none }, retryCnt := 0, waitIndex := 1 }
    (by decide)

/-- C8: the address built for a service entry is the service address
joined with the service port as host:port, falling back to the node
address when the service address is empty; `queryAddrs` maps this over
the (possibly health-filtered) entries. -/
theorem entryAddr_spec (e : ServiceEntry) (mode : HealthFilterMode)
    (entries : List ServiceEntry) :
    (e.service.address ≠ "" →
      entryAddr e = joinHostPort e.service.address (toString e.service.port)) ∧
    (e.service.address = "" →
      entryAddr e = joinHostPort e.node.address (toString e.service.port)) ∧
    queryAddrs mode entries =
      (if mode = .fallbackToUnhealthy then filterPreferOnlyHealthy entries
       else entries).map entryAddr := by
  refine ⟨?_, ?_, rfl⟩
  · intro h
    simp [entryAddr, h]
  · intro h
    simp [entryAddr, h]

/-- Witness for C8: an entry with an empty service address resolves via
its node address, one with a service address uses it directly. -/
theorem entryAddr_spec_witness :
    entryAddr { service := { id := "i", address := "", port := 7 },
                node := { address := "10.0.0.1" }, checks := [] }
      = joinHostPort "10.0.0.1" (toString (7 : Int)) ∧
    entryAddr { service := { id := "j", address := "svc.local", port := 8 },
                node := { address := "10.0.0.2" }, checks := [] }
      = joinHostPort "svc.local" (toString (8 : Int)) :=
  ⟨(entryAddr_spec ⟨⟨"i", "", 7⟩, ⟨"10.0.0.1"⟩, []⟩ HealthFilterMode.onlyHealthy []).2.1 rfl,
   (entryAddr_spec ⟨⟨"j", "svc.local", 8⟩, ⟨"10.0.0.2"⟩, []⟩ HealthFilterMode.onlyHealthy []).1
     (by decide)⟩

/-- C9: from the initial state (nil addresses never reported), the first
successful query always calls `UpdateState`, even with zero instances:
the nil never-reported state differs from an empty list, so an empty
service is delivered as an empty address set. -/
theorem first_query_always_reported (mode : HealthFilterMode) (entries : List ServiceEntry)
    (idx : Nat) (f : Bool) :
    (watcherStep mode initWatcherState (.ok entries idx) f).events
      = [.updateState (sortAddrs (queryAddrs mode entries))] ∧
    addressesEqual (some []) none = false ∧
    (watcherStep mode initWatcherState (.ok [] idx) f).events = [.updateState []] := by
  have hstep : ∀ es : List ServiceEntry,
      (watcherStep mode initWatcherState (.ok es idx) f).events
        = [.updateState (sortAddrs (queryAddrs mode es))] := by
    intro es
    simp only [watcherStep]
    rw [if_neg (show ¬ idx < initWatcherState.waitIndex from Nat.not_lt_zero idx)]
    simp [reportAddress, addressesEqual, initWatcherState]
  refine ⟨hstep entries, rfl, ?_⟩
  rw [hstep []]
  have hq : queryAddrs mode [] = [] := by cases mode <;> rfl
  rw [hq]
  rfl

/-- The option loop processes a concatenation left to right, stopping at
the first error. -/
theorem extractOptsLoop_append (xs ys : List (String × List String)) :
    ∀ acc : Opts, extractOptsLoop acc (xs ++ ys) =
      match extractOptsLoop acc xs with
      | .ok a => extractOptsLoop a ys
      | .error e => .error e := by
  induction xs with
  | nil => intro acc; rfl
  | cons p rest ih =>
    intro acc
    obtain ⟨k, vs⟩ := p
    simp only [List.cons_append, extractOptsLoop]
    split_ifs <;> first | apply ih | rfl

/-- One option is consumed without error exactly when it is valid in the
sense of the specification. -/
theorem extractOptsLoop_single_isOk (acc : Opts) (k : String) (vs : List String)
    (hvs : vs ≠ ([] : List String)) :
    (extractOptsLoop acc [(k, vs)]).isOk = paramOkSpec k vs := by
  simp only [extractOptsLoop, paramOkSpec, if_neg hvs]
  split_ifs <;> simp_all [Except.isOk, Except.toBool]

/-- The option loop succeeds exactly when every parameter with a
non-empty value list is valid in the sense of the specification. -/
theorem extractOptsLoop_isOk_iff (q : List (String × List String)) :
    ∀ acc : Opts, (∀ p ∈ q, p.2 ≠ ([] : List String)) →
      ((extractOptsLoop acc q).isOk = true ↔ ∀ p ∈ q, paramOkSpec p.1 p.2 = true) := by
  induction q with
  | nil =>
    intro acc _
    simp [extractOptsLoop, Except.isOk, Except.toBool]
  | cons p rest ih =>
    intro acc hv
    obtain ⟨k, vs⟩ := p
    have hvs : vs ≠ ([] : List String) := hv (k, vs) (List.mem_cons_self _ _)
    have hsplit := extractOptsLoop_append [(k, vs)] rest acc
    simp only [List.singleton_append] at hsplit
    have hsingle := extractOptsLoop_single_isOk acc k vs hvs
    cases hok : extractOptsLoop acc [(k, vs)] with
    | error e =>
      rw [hok] at hsingle
      rw [hsplit, hok]
      simp only [Except.isOk, Except.toBool] at hsingle ⊢
      constructor
      · intro hfalse
        cases hfalse
      · intro hall
        have hhead := hall (k, vs) (List.mem_cons_self _ _)
        rw [← hsingle] at hhead
        cases hhead
    | ok a =>
      rw [hok] at hsingle
      rw [hsplit, hok]
      rw [ih a (fun p hp => hv p (List.mem_cons_of_mem _ hp))]
      simp only [Except.isOk, Except.toBool] at hsingle
      constructor
      · intro hrest p hp
        rcases List.mem_cons.mp hp with heq | hp2
        · rw [heq]
          exact hsingle.symm
        · exact hrest p hp2
      · intro hall p hp
        exact hall p (List.mem_cons_of_mem _ hp)

/-- When no parameter names the scheme option, the option loop leaves the
scheme accumulator untouched. -/
theorem extractOptsLoop_scheme_invariant (q : List (String × List String)) :
    ∀ acc o, extractOptsLoop acc q = .ok o →
      (∀ p ∈ q, goToLower p.1 ≠ "scheme") → o.scheme = acc.scheme := by
  induction q with
  | nil =>
    intro acc o h _
    cases h
    rfl
  | cons p rest ih =>
    intro acc o h hk
    obtain ⟨k, vs⟩ := p
    have hk1 : goToLower k ≠ "scheme" := hk (k, vs) (List.mem_cons_self _ _)
    have hkrest : ∀ p ∈ rest, goToLower p.1 ≠ "scheme" :=
      fun p hp => hk p (List.mem_cons_of_mem _ hp)
    simp only [extractOptsLoop] at h
    split_ifs at h <;>
      exact (ih _ _ h hkrest).trans rfl

/-- When no parameter names the health option, the option loop leaves the
health accumulator untouched. -/
theorem extractOptsLoop_health_invariant (q : List (String × List String)) :
    ∀ acc o, extractOptsLoop acc q = .ok o →
      (∀ p ∈ q, goToLower p.1 ≠ "health") → o.health = acc.health := by
  induction q with
  | nil =>
    intro acc o h _
    cases h
    rfl
  | cons p rest ih =>
    intro acc o h hk
    obtain ⟨k, vs⟩ := p
    have hk1 : goToLower k ≠ "health" := hk (k, vs) (List.mem_cons_self _ _)
    have hkrest : ∀ p ∈ rest, goToLower p.1 ≠ "health" :=
      fun p hp => hk p (List.mem_cons_of_mem _ hp)
    simp only [extractOptsLoop] at h
    split_ifs at h <;>
      exact (ih _ _ h hkrest).trans rfl

/-- C10: `parseEndpoint` accepts a target url exactly when the trimmed
path names a non-empty service and every query parameter is one of
scheme, tags, health or token with a supported value (keys and values
matched case-insensitively); on success an absent scheme defaults to
"http" and an absent health option to the only-healthy filter; an option
given multiple times only uses its last occurrence. -/
theorem parseEndpoint_accepts_iff (path : String) (q : List (String × List String))
    (hv : ∀ p ∈ q, p.2 ≠ ([] : List String)) :
    ((parseEndpoint path q).isOk = true ↔
      (trimmedService path ≠ "" ∧ ∀ p ∈ q, paramOkSpec p.1 p.2 = true)) ∧
    (∀ ep, parseEndpoint path q = .ok ep →
      ((∀ p ∈ q, goToLower p.1 ≠ "scheme") → ep.scheme = "http") ∧
      ((∀ p ∈ q, goToLower p.1 ≠ "health") → ep.health = .onlyHealthy)) ∧
    (∀ (k : String) (vs : List String) (rest : List (String × List String)) (acc : Opts),
      vs ≠ ([] : List String) →
      extractOptsLoop acc ((k, vs) :: rest)
        = extractOptsLoop acc ((k, [vs.getLastD ""]) :: rest)) := by
  refine ⟨?_, ?_, ?_⟩
  · by_cases hsv : trimmedService path = ""
    · simp [parseEndpoint, hsv, Except.isOk, Except.toBool]
    · have hiff := extractOptsLoop_isOk_iff q {} hv
      simp only [parseEndpoint, if_neg hsv]
      cases hq : extractOpts q with
      | error e =>
        have hq' : extractOptsLoop {} q = Except.error e := hq
        rw [hq'] at hiff
        constructor
        · intro hfalse
          simp [Except.isOk, Except.toBool] at hfalse
        · intro hall
          have := hiff.mpr hall.2
          simp [Except.isOk, Except.toBool] at this
      | ok o =>
        have hq' : extractOptsLoop {} q = Except.ok o := hq
        rw [hq'] at hiff
        exact ⟨fun _ => ⟨hsv, hiff.mp rfl⟩, fun _ => rfl⟩
  · intro ep hep
    by_cases hsv : trimmedService path = ""
    · simp only [parseEndpoint, if_pos hsv] at hep
      cases hep
    · simp only [parseEndpoint, if_neg hsv] at hep
      cases hq : extractOpts q with
      | error e =>
        rw [hq] at hep
        cases hep
      | ok o =>
        rw [hq] at hep
        simp only [Except.ok.injEq] at hep
        have hqo : extractOptsLoop {} q = Except.ok o := hq
        constructor
        · intro hns
          have ho : o.scheme = "" := extractOptsLoop_scheme_invariant q {} o hqo hns
          rw [← hep]
          simp [ho]
        · intro hnh
          have ho : o.health = .undefined :=
            extractOptsLoop_health_invariant q {} o hqo hnh
          rw [← hep]
          simp [ho]
  · intro k vs rest acc hvs
    have hlast : ([vs.getLastD ""] : List String).getLastD "" = vs.getLastD "" := rfl
    simp only [extractOptsLoop, if_neg hvs,
      if_neg (List.cons_ne_nil (vs.getLastD "") ([] : List String)), hlast]

/-- Witness for C10: a url with mixed-case scheme option and a tags
option is accepted, with case-insensitive matching. -/
theorem parseEndpoint_accepts_iff_witness :
    ((parseEndpoint "/user-service" [("Scheme", ["HTTPS"]), ("tags", ["a,b"])]).isOk = true ↔
      (trimmedService "/user-service" ≠ "" ∧
       ∀ p ∈ [("Scheme", ["HTTPS"]), ("tags", ["a,b"])], paramOkSpec p.1 p.2 = true)) :=
  (parseEndpoint_accepts_iff "/user-service" [("Scheme", ["HTTPS"]), ("tags", ["a,b"])]
    (by decide)).1

end GrpcConsulResolver
